import Mathlib

/-!
Shallow embedding of `src/src/lab-01-galton-board.c` (a Galton-board
simulation for an RP2040 board with an SSD1306 display), together with
proofs about its lattice generation, particle motion, bin accumulation,
reset handling and main-loop controller.

C `float` arithmetic is modelled by exact rationals; `(int)` casts of
nonnegative values are truncation toward zero (`cint` below).  The main
polling loop is modelled as a step function `tick` on a `Sim` state; the
two non-deterministic inputs of one loop iteration (whether the release
delay has elapsed, and the random direction bit drawn for each ball) are
passed in explicitly through `Input`.
-/

set_option maxRecDepth 10000

namespace Galton

/-- The C macro `#define BASE_PINS 15`. -/
def BASE_PINS : ℕ := 15

/-- The C macro `#define ROWS BASE_PINS`. -/
def ROWS : ℕ := BASE_PINS

/-- The C macro `#define TOTAL_BALLS 100`. -/
def TOTAL_BALLS : ℕ := 100

/-- The C macro `#define NUM_BINS 7`. -/
def NUM_BINS : ℕ := 7

/-- C cast of a (real-valued) expression to `int`: truncation toward zero. -/
def cint (q : ℚ) : ℤ := if 0 ≤ q then ⌊q⌋ else -⌊-q⌋

/-- Modelled from the spec: the display width in pixels.  The constant
`ssd1306_width` comes from `inc/ssd1306.h`, which is not part of `src/`;
the SSD1306 module of the target board is the standard 128×64 one. -/
def ssd1306_width : ℕ := 128

/-- Modelled from the spec: the number of 8-pixel display pages.  The
constant `ssd1306_n_pages` comes from `inc/ssd1306.h`, which is not part
of `src/`; the SSD1306 module of the target board is the standard 128×64
one, hence 8 pages. -/
def ssd1306_n_pages : ℕ := 8

/-- The global `display_width = ssd1306_width` (set in `init_pins`). -/
def display_width : ℕ := ssd1306_width

/-- The global `display_height = ssd1306_n_pages * 8` (set in `init_pins`). -/
def display_height : ℕ := ssd1306_n_pages * 8

/-- The global `step_x = (display_width * 0.5f) / (float)(BASE_PINS - 1)` from
`init_pins`, with the display width `W` and the pin-count macro `R`
(the source fixes `R = BASE_PINS`) as parameters. -/
def stepX (W R : ℕ) : ℚ := ((W : ℚ) * (1/2)) / ((R : ℚ) - 1)

/-- The globals `int half_h = display_height / 2` and
`step_y = (half_h - 1) / (float)(ROWS - 1)`
from `init_pins`; `H / 2` is C integer division. -/
def stepY (H R : ℕ) : ℚ := (((H / 2 : ℕ) : ℚ) - 1) / ((R : ℚ) - 1)

/-- The local `float shift_x = ((display_width - 1) - (count - 1) * step_x) * 0.5f`
from `init_pins`, for a row of `count` pins. -/
def shiftX (W R count : ℕ) : ℚ :=
  (((W : ℚ) - 1) - ((count : ℚ) - 1) * stepX W R) * (1/2)

/-- The peg x `pins[r][c].x = (int)(shift_x + c * step_x + 0.5f)` from `init_pins`
(row `r` has `count = r + 1` pins). -/
def pinX (W R r c : ℕ) : ℤ := cint (shiftX W R (r + 1) + (c : ℚ) * stepX W R + 1/2)

/-- The peg y `pins[r][c].y = (int)(r * step_y + 0.5f)` from `init_pins`. -/
def pinY (H R r : ℕ) : ℤ := cint ((r : ℚ) * stepY H R + 1/2)

/-- The row size `pins_per_row[r] = r + 1` from `init_pins`. -/
def pins_per_row (r : ℕ) : ℕ := r + 1

/-- The local `int start = pins[ROWS - 1][0].x` from `init_pins`. -/
def binStart (W : ℕ) : ℤ := pinX W BASE_PINS (ROWS - 1) 0

/-- The local `int end = pins[ROWS - 1][pins_per_row[ROWS - 1] - 1].x` from
`init_pins`. -/
def binEnd (W : ℕ) : ℤ := pinX W BASE_PINS (ROWS - 1) (pins_per_row (ROWS - 1) - 1)

/-- The local `float bin_step = (float)(end - start) / (NUM_BINS - 1)` from
`init_pins`. -/
def binStep (W : ℕ) : ℚ := ((binEnd W - binStart W : ℤ) : ℚ) / ((NUM_BINS : ℚ) - 1)

/-- The bin position `bin_x[i] = (int)(start + i * bin_step + 0.5f)` from
`init_pins`. -/
def binX (W : ℕ) (i : ℕ) : ℤ := cint ((binStart W : ℚ) + (i : ℚ) * binStep W + 1/2)

/-- The `Ball` struct: position, activity flag, bin-credit flag, last
pin row interacted with. -/
structure Ball where
  x : ℚ
  y : ℚ
  active : Bool
  counted : Bool
  last_row : ℤ
deriving DecidableEq

/-- The all-zero `Ball`, the value of the zero-initialised C statics. -/
def ballZero : Ball := ⟨0, 0, false, false, 0⟩

/-- The function `init_ball`: start at the apex pin, `y = 0`, active, uncounted,
`last_row = -1`. -/
def init_ball (W : ℕ) : Ball :=
  { x := ((pinX W BASE_PINS 0 0 : ℤ) : ℚ), y := 0, active := true,
    counted := false, last_row := -1 }

/-- The function `update_ball`, parametrised by the geometry globals `sx = step_x`,
`sy = step_y`, `H = display_height` and by the random bit `dir` drawn by
`random_dir()` (true = right).  No-op on an inactive ball; otherwise the
ball falls by `1.5`, deflects once if it entered a new row in
`[0, ROWS)`, and is deactivated as soon as `y ≥ H`. -/
def update_ball (sx sy : ℚ) (H : ℕ) (dir : Bool) (b : Ball) : Ball :=
  if b.active = false then b
  else
    let y2 := b.y + 3/2
    let row : ℤ := ⌊(y2 + sy * (1/2)) / sy⌋
    if row ≠ b.last_row ∧ 0 ≤ row ∧ row < (ROWS : ℤ) then
      { x := if dir then b.x + sx else b.x - sx, y := y2,
        active := decide (y2 < (H : ℚ)), counted := b.counted, last_row := row }
    else
      { x := b.x, y := y2, active := decide (y2 < (H : ℚ)),
        counted := b.counted, last_row := b.last_row }

/-- The assignment `balls[i].active = balls[i].counted = false` for one ball
(`reset_simulation` body). -/
def clearBall (b : Ball) : Ball := { b with active := false, counted := false }

/-- The ball half of `reset_simulation`. -/
def reset_balls (balls : List Ball) : List Ball := balls.map clearBall

/-- The bin half of `reset_simulation`: `bins[i] = 0` for all `i`. -/
def zeroBins : List ℕ := List.replicate NUM_BINS 0

/-- The function `reset_simulation`: clear every ball's flags and zero every bin. -/
def reset_simulation (p : List Ball × List ℕ) : List Ball × List ℕ :=
  (reset_balls p.1, zeroBins)

/-- One iteration of the nearest-bin scan of `main`:
`if (dist < min_dist) { min_dist = dist; idx = j; }`. -/
def scanStep (f : ℕ → ℤ) (p : ℤ × ℕ) (j : ℕ) : ℤ × ℕ :=
  if f j < p.1 then (f j, j) else p

/-- The whole nearest-bin scan: fold `scanStep` over `j = 0, …, n-1`
starting from `min_dist = 10000, idx = 0`. -/
def scanLoop (f : ℕ → ℤ) (n : ℕ) : ℤ × ℕ :=
  (List.range n).foldl (scanStep f) (10000, 0)

/-- The distance `dist = abs((int)b->x - bin_x[j])` from the binning branch of
`main`. -/
def binDist (W : ℕ) (x : ℚ) (j : ℕ) : ℤ := |cint x - binX W j|

/-- The bin index chosen by the scan in `main` for a ball whose final x
is `x`. -/
def selectBin (W : ℕ) (x : ℚ) : ℕ := (scanLoop (binDist W x) NUM_BINS).2

/-- The increment `bins[idx]++`. -/
def incBin (bins : List ℕ) (i : ℕ) : List ℕ := bins.set i (bins.getD i 0 + 1)

/-- The controller state of `main`: the `running` flag, `ball_count`,
the ball array, the bin counters, and the previous button samples used
for edge detection. -/
structure Sim where
  running : Bool
  ballCount : ℕ
  balls : List Ball
  bins : List ℕ
  lastBtnA : Bool
  lastBtnB : Bool
deriving DecidableEq

/-- The non-deterministic inputs consumed by one iteration of the main
loop: the two (debounced) button samples, whether
`absolute_time_diff_us(last_rel, now) >= RELEASE_DELAY` held, and the
random direction bit `random_dir()` would return for ball `i` this
iteration. -/
structure Input where
  btnA : Bool
  btnB : Bool
  spawnDue : Bool
  dirs : ℕ → Bool

/-- The state of `main` when the loop is first entered: statics are
zero-initialised and `reset_simulation()` has run. -/
def initSim : Sim :=
  { running := false, ballCount := 0, balls := List.replicate TOTAL_BALLS ballZero,
    bins := zeroBins, lastBtnA := false, lastBtnB := false }

/-- The button-A handler of one loop iteration: a rising edge while
idle starts a fresh run (`running = true`, `ball_count = 0`,
`reset_simulation()`).  Note it does not touch the stored previous
samples; those are updated at the end of `buttonStep`, as in the C. -/
def buttonStepA (iA : Bool) (s : Sim) : Sim :=
  if (iA && !s.lastBtnA && !s.running) = true then
    { s with
        running := true
        ballCount := 0
        balls := reset_balls s.balls
        bins := zeroBins }
  else s

/-- The button-B handler of one loop iteration: a rising edge stops the
run and resets balls and bins (the cleared-frame render is external). -/
def buttonStepB (iB : Bool) (s : Sim) : Sim :=
  if (iB && !s.lastBtnB) = true then
    { s with running := false, balls := reset_balls s.balls, bins := zeroBins }
  else s

/-- The button-handling prefix of one loop iteration: handle A, then B,
then store the current samples for the next iteration's edge
detection.  (Neither handler modifies the stored samples, so reading
`s.lastBtnB` inside `buttonStepB` matches the C.) -/
def buttonStep (iA iB : Bool) (s : Sim) : Sim :=
  { buttonStepB iB (buttonStepA iA s) with lastBtnA := iA, lastBtnB := iB }

/-- The effect of the per-ball `for` loop of `main` on ball `i`:
an active ball is advanced by `update_ball`, an inactive uncounted ball
is credited to its nearest bin, a counted ball is left alone. -/
def procOne (W H : ℕ) (dirs : ℕ → Bool) (i : ℕ) (b : Ball) : Ball :=
  if b.active = true then update_ball (stepX W BASE_PINS) (stepY H ROWS) H (dirs i) b
  else if b.counted = false then { b with counted := true }
  else b

/-- One iteration of the per-ball `for` loop of `main`, acting on the
pair (ball array, bin array). -/
def stepBody (W H : ℕ) (dirs : ℕ → Bool) (acc : List Ball × List ℕ) (i : ℕ) :
    List Ball × List ℕ :=
  let b := acc.1.getD i ballZero
  if b.active = true then
    (acc.1.set i (update_ball (stepX W BASE_PINS) (stepY H ROWS) H (dirs i) b), acc.2)
  else if b.counted = false then
    (acc.1.set i { b with counted := true }, incBin acc.2 (selectBin W b.x))
  else acc

/-- The loop `for (int i = 0; i < ball_count; i++)` over all spawned balls from
`main`. -/
def processAll (W H : ℕ) (dirs : ℕ → Bool) (bc : ℕ) (balls : List Ball)
    (bins : List ℕ) : List Ball × List ℕ :=
  (List.range bc).foldl (stepBody W H dirs) (balls, bins)

/-- The completion scan of `main`: is any of the `TOTAL_BALLS` ball
slots still active? -/
def anyActive (balls : List Ball) : Bool :=
  (List.range TOTAL_BALLS).any (fun i => (balls.getD i ballZero).active)

/-- The tail of the `if (running)` block of `main`, after the spawn
decision: run the per-ball loop on `bc` balls, then clear `running` if
all `TOTAL_BALLS` balls have been spawned and none is active. -/
def advanceFrame (W H : ℕ) (dirs : ℕ → Bool) (s : Sim) (bc : ℕ)
    (balls0 : List Ball) : Sim :=
  let pb := processAll W H dirs bc balls0 s.bins
  { s with
      running := if TOTAL_BALLS ≤ bc ∧ anyActive pb.1 = false then false else s.running
      ballCount := bc
      balls := pb.1
      bins := pb.2 }

/-- The `if (running)` block of `main`: spawn the next ball if capacity
and the release delay allow, then advance the frame.  Rendering calls
are omitted (they do not touch the simulation state). -/
def runStep (W H : ℕ) (spawnDue : Bool) (dirs : ℕ → Bool) (s : Sim) : Sim :=
  if s.running = true then
    if s.ballCount < TOTAL_BALLS ∧ spawnDue = true then
      advanceFrame W H dirs s (s.ballCount + 1) (s.balls.set s.ballCount (init_ball W))
    else
      advanceFrame W H dirs s s.ballCount s.balls
  else s

/-- One full iteration of the `while (true)` loop of `main`. -/
def tick (W H : ℕ) (inp : Input) (s : Sim) : Sim :=
  runStep W H inp.spawnDue inp.dirs (buttonStep inp.btnA inp.btnB s)

/-- Number of balls already credited to a bin. -/
def countedCount (balls : List Ball) : ℕ := balls.countP (fun b => b.counted)

/-- The loop invariant of `main` relating the controller state to the
ball and bin arrays: fixed array sizes, `ball_count` within capacity,
the bins hold exactly the counted balls, counted balls are inactive,
slots not yet spawned are uncounted, and while `running` with all balls
spawned at least one ball is still active (otherwise the previous
iteration's completion check would already have cleared `running`). -/
def SimInv (s : Sim) : Prop :=
  s.balls.length = TOTAL_BALLS ∧
  s.bins.length = NUM_BINS ∧
  s.ballCount ≤ TOTAL_BALLS ∧
  s.bins.sum = countedCount s.balls ∧
  (∀ i, i < TOTAL_BALLS → (s.balls.getD i ballZero).counted = true →
    (s.balls.getD i ballZero).active = false) ∧
  (∀ i, i < TOTAL_BALLS → s.ballCount ≤ i →
    (s.balls.getD i ballZero).counted = false) ∧
  (s.running = true → s.ballCount = TOTAL_BALLS →
    anyActive s.balls = true)

/-- The states of `main` reachable from loop entry under some sequence
of button samples, release-timer expiries and random bits. -/
inductive Reach (W H : ℕ) : Sim → Prop where
  | init : Reach W H initSim
  | step : ∀ (inp : Input) (s : Sim), Reach W H s → Reach W H (tick W H inp s)

/-- The trajectory of a ball spawned at the apex when every deflection
draw comes out "right", on the actual display geometry (`W = 128`,
`H = 64`): state after `k` calls to `update_ball`. -/
def traceRight : ℕ → Ball
  | 0 => init_ball display_width
  | k + 1 => update_ball (stepX display_width BASE_PINS) (stepY display_height ROWS)
      display_height true (traceRight k)

/-- The rows at which the forced-right apex ball deflects, in the order
the deflections happen (a deflection at step `k+1` is visible as a
change of `last_row`). -/
def deflectRows : List ℤ :=
  (List.range 43).filterMap (fun k =>
    if (traceRight (k + 1)).last_row ≠ (traceRight k).last_row then
      some ((traceRight (k + 1)).last_row)
    else none)

instance decSimInv (s : Sim) : Decidable (SimInv s) := by
  unfold SimInv
  infer_instance

/-- A ball that has exited the board and been credited to its bin. -/
def ballDone : Ball := ⟨64, 65, false, true, 14⟩

/-- A ball one tick away from exiting the board (`y + 1.5 = 64`). -/
def ballLast : Ball := ⟨64, 63, true, false, 14⟩

/-- A state of the final iteration of a run: all 100 balls spawned, 99
already settled into bin 0, the last one still falling. -/
def simLastTick : Sim :=
  ⟨true, 100, List.replicate 99 ballDone ++ [ballLast], [99, 0, 0, 0, 0, 0, 0],
   false, false⟩

/-- Loop inputs with both buttons up and the release delay not yet
elapsed. -/
def inpQuiet : Input := ⟨false, false, false, fun _ => true⟩

/-- Loop inputs with button B (reset) freshly pressed. -/
def inpReset : Input := ⟨false, true, false, fun _ => true⟩

/-- A mid-run state: 3 of 100 balls spawned, one still falling, two
already counted. -/
def simMidRun : Sim :=
  ⟨true, 3, ballDone :: ballDone :: ballLast :: List.replicate 97 ballZero,
   [2, 0, 0, 0, 0, 0, 0], false, false⟩

end Galton

unseal Rat.add Rat.mul Rat.sub Rat.inv Rat.ofScientific

namespace Galton

theorem getD_set_self {α : Type} (d : α) (l : List α) (i : ℕ) (v : α)
    (h : i < l.length) : (l.set i v).getD i d = v := by
  induction l generalizing i with
  | nil => simp at h
  | cons a t ih =>
    cases i with
    | zero => simp [List.set]
    | succ n =>
      simp only [List.set, List.getD_cons_succ]
      exact ih n (by simpa using h)

theorem getD_set_ne {α : Type} (d : α) (l : List α) (i j : ℕ) (v : α)
    (h : i ≠ j) : (l.set i v).getD j d = l.getD j d := by
  induction l generalizing i j with
  | nil => simp [List.set]
  | cons a t ih =>
    cases i with
    | zero =>
      cases j with
      | zero => exact absurd rfl h
      | succ m => simp [List.set]
    | succ n =>
      cases j with
      | zero => simp [List.set]
      | succ m =>
        simp only [List.set, List.getD_cons_succ]
        exact ih n m (fun e => h (by omega))

theorem countP_set_add {α : Type} (p : α → Bool) (d : α) (l : List α) (i : ℕ)
    (v : α) (h : i < l.length) :
    (l.set i v).countP p + (if p (l.getD i d) then 1 else 0) =
      l.countP p + (if p v then 1 else 0) := by
  induction l generalizing i with
  | nil => simp at h
  | cons a t ih =>
    cases i with
    | zero => simp [List.set, List.countP_cons]; omega
    | succ n =>
      simp only [List.set, List.countP_cons, List.getD_cons_succ]
      have := ih n (by simpa using h)
      omega

theorem sum_set_nat (l : List ℕ) (i : ℕ) (v : ℕ) (h : i < l.length) :
    (l.set i v).sum + l.getD i 0 = l.sum + v := by
  induction l generalizing i with
  | nil => simp at h
  | cons a t ih =>
    cases i with
    | zero => simp [List.set]; omega
    | succ n =>
      simp only [List.set, List.sum_cons, List.getD_cons_succ]
      have := ih n (by simpa using h)
      omega

theorem sum_incBin (l : List ℕ) (i : ℕ) (h : i < l.length) :
    (incBin l i).sum = l.sum + 1 := by
  have := sum_set_nat l i (l.getD i 0 + 1) h
  unfold incBin
  omega

theorem countP_lt_of_getD_false (p : Ball → Bool) (l : List Ball) (i : ℕ)
    (hi : i < l.length) (h : p (l.getD i ballZero) = false) :
    l.countP p < l.length := by
  induction l generalizing i with
  | nil => simp at hi
  | cons a t ih =>
    cases i with
    | zero =>
      simp only [List.getD_cons_zero] at h
      have hle := List.countP_le_length (p := p) (l := t)
      simp only [List.countP_cons, h, List.length_cons, if_false,
        Bool.false_eq_true, Nat.add_zero]
      omega
    | succ n =>
      simp only [List.getD_cons_succ] at h
      have := ih n (by simpa using hi) h
      simp only [List.countP_cons, List.length_cons]
      by_cases hp : p a = true <;> simp [hp] <;> omega

theorem cint_eq_floor (q : ℚ) (h : 0 ≤ q) : cint q = ⌊q⌋ := by
  simp [cint, h]

theorem floor_add_half_abs (g : ℚ) : |((⌊g + 1/2⌋ : ℤ) : ℚ) - g| ≤ 1/2 := by
  have h1 : ((⌊g + 1/2⌋ : ℤ) : ℚ) ≤ g + 1/2 := Int.floor_le _
  have h2 : g + 1/2 < ((⌊g + 1/2⌋ : ℤ) : ℚ) + 1 := Int.lt_floor_add_one _
  rw [abs_le]
  constructor <;> linarith

theorem scanLoop_succ (f : ℕ → ℤ) (n : ℕ) :
    scanLoop f (n + 1) = scanStep f (scanLoop f n) n := by
  simp [scanLoop, List.range_succ, List.foldl_append]

theorem scanLoop_spec (f : ℕ → ℤ) (n : ℕ) (hn : 1 ≤ n) (h0 : f 0 < 10000) :
    (scanLoop f n).1 = f (scanLoop f n).2 ∧ (scanLoop f n).2 < n ∧
      (∀ j, j < n → f (scanLoop f n).2 ≤ f j) ∧
      (∀ j, j < (scanLoop f n).2 → f (scanLoop f n).2 < f j) := by
  induction n, hn using Nat.le_induction with
  | base =>
    have : scanLoop f 1 = (f 0, 0) := by
      simp [scanLoop, List.range_succ, List.range_zero, scanStep, if_pos h0]
    rw [this]
    refine ⟨rfl, Nat.one_pos, ?_, ?_⟩
    · intro j hj
      interval_cases j
      exact le_refl _
    · intro j hj
      exact absurd hj (Nat.not_lt_zero _)
  | succ n hn ih =>
    obtain ⟨h1, h2, h3, h4⟩ := ih
    rw [scanLoop_succ]
    unfold scanStep
    by_cases hc : f n < (scanLoop f n).1
    · rw [if_pos hc]
      rw [h1] at hc
      refine ⟨rfl, Nat.lt_succ_self _, ?_, ?_⟩
      · intro j hj
        rcases Nat.lt_succ_iff_lt_or_eq.mp hj with hj | hj
        · exact le_of_lt (lt_of_lt_of_le hc (h3 j hj))
        · rw [hj]
      · intro j hj
        exact lt_of_lt_of_le hc (h3 j hj)
    · rw [if_neg hc]
      rw [h1] at hc
      refine ⟨h1, h2.trans (Nat.lt_succ_self _), ?_, h4⟩
      intro j hj
      rcases Nat.lt_succ_iff_lt_or_eq.mp hj with hj | hj
      · exact h3 j hj
      · rw [hj]; exact le_of_not_lt hc

theorem scanLoop_idx_lt (f : ℕ → ℤ) (n : ℕ) (hn : 1 ≤ n) :
    (scanLoop f n).2 < n := by
  induction n, hn using Nat.le_induction with
  | base =>
    simp only [scanLoop, List.range_succ, List.range_zero, List.nil_append,
      List.foldl_cons, List.foldl_nil, scanStep]
    split <;> simp
  | succ n hn ih =>
    rw [scanLoop_succ]
    unfold scanStep
    split
    · exact Nat.lt_succ_self _
    · exact ih.trans (Nat.lt_succ_self _)

/-- Claim C9: the reset operation is idempotent — from any simulation
state, applying `reset_simulation` twice in a row yields exactly the
same particle-slot and bin state as applying it once. -/
theorem C9_reset_idempotent (p : List Ball × List ℕ) :
    reset_simulation (reset_simulation p) = reset_simulation p := by
  unfold reset_simulation reset_balls
  refine Prod.ext ?_ rfl
  simp only [List.map_map]
  exact List.map_congr_left (fun b _ => rfl)

/-- Claim C6: for an active particle, the `update_ball` call on which
its `y` first reaches or exceeds `display_height` marks it inactive in
that same call — after any update the particle is inactive exactly when
its new `y` is `≥ display_height`, so in particular `y` landing exactly
on `display_height` already deactivates it. -/
theorem C6_exit_same_call (sx sy : ℚ) (H : ℕ) (dir : Bool) (b : Ball)
    (h : b.active = true) :
    ((update_ball sx sy H dir b).active = false ↔
      (H : ℚ) ≤ (update_ball sx sy H dir b).y) := by
  unfold update_ball
  rw [h]
  simp only [Bool.true_eq_false, if_false]
  split <;> simp [decide_eq_false_iff_not, not_lt]

theorem C6_witness :
    ((⟨0, 125/2, true, false, 14⟩ : Ball).active = true) ∧
      (update_ball (32/7) (31/14) 64 true ⟨0, 125/2, true, false, 14⟩).y = 64 ∧
      (update_ball (32/7) (31/14) 64 true ⟨0, 125/2, true, false, 14⟩).active = false :=
  ⟨rfl, by decide,
    (C6_exit_same_call (32/7) (31/14) 64 true ⟨0, 125/2, true, false, 14⟩ rfl).mpr
      (by decide)⟩

/-- Claim C5: whenever the distance from the particle's truncated final
x to bin 0 is below the `10000` sentinel (as it is for every particle
the simulation ever settles), the nearest-bin scan selects a bin of
minimal absolute distance to the particle's final x, and among bins of
minimal distance the one with the lowest index. -/
theorem C5_nearest_bin (W : ℕ) (x : ℚ) (h0 : binDist W x 0 < 10000) :
    selectBin W x < NUM_BINS ∧
      (∀ j, j < NUM_BINS → binDist W x (selectBin W x) ≤ binDist W x j) ∧
      (∀ j, j < selectBin W x → binDist W x (selectBin W x) < binDist W x j) := by
  have h := scanLoop_spec (binDist W x) NUM_BINS (by norm_num [NUM_BINS]) h0
  exact ⟨h.2.1, h.2.2.1, h.2.2.2⟩

theorem C5_witness : binDist 128 200 0 < 10000 ∧ selectBin 128 200 < NUM_BINS :=
  ⟨by decide, (C5_nearest_bin 128 200 (by decide)).1⟩

/-- Claim C7: for every particle x value — however far outside the
display — the bin scan selects an index in `[0, NUM_BINS)`, and the
increment `bins[idx]++` touches exactly that in-bounds element, so no
out-of-bounds access can occur. -/
theorem C7_bin_update_safe (W : ℕ) (x : ℚ) (bins : List ℕ)
    (hlen : bins.length = NUM_BINS) :
    selectBin W x < NUM_BINS ∧
      (incBin bins (selectBin W x)).length = NUM_BINS ∧
      (incBin bins (selectBin W x)).getD (selectBin W x) 0 =
        bins.getD (selectBin W x) 0 + 1 ∧
      ∀ j, j ≠ selectBin W x →
        (incBin bins (selectBin W x)).getD j 0 = bins.getD j 0 := by
  have hidx : selectBin W x < NUM_BINS :=
    scanLoop_idx_lt (binDist W x) NUM_BINS (by norm_num [NUM_BINS])
  refine ⟨hidx, ?_, ?_, ?_⟩
  · simp [incBin, hlen]
  · unfold incBin
    exact getD_set_self 0 bins _ _ (by omega)
  · intro j hj
    unfold incBin
    exact getD_set_ne 0 bins _ j _ (fun e => hj e.symm)

theorem C7_witness :
    zeroBins.length = NUM_BINS ∧ selectBin 128 (-5000) < NUM_BINS ∧
      (incBin zeroBins (selectBin 128 (-5000))).getD (selectBin 128 (-5000)) 0 =
        zeroBins.getD (selectBin 128 (-5000)) 0 + 1 :=
  ⟨rfl, (C7_bin_update_safe 128 (-5000) zeroBins rfl).1,
    (C7_bin_update_safe 128 (-5000) zeroBins rfl).2.2.1⟩

theorem stepX_nonneg (W R : ℕ) (hR : 1 ≤ R) : 0 ≤ stepX W R := by
  unfold stepX
  rcases eq_or_lt_of_le hR with h | h
  · rw [← h]
    norm_num
  · have h2 : (2 : ℚ) ≤ (R : ℚ) := by exact_mod_cast h
    apply div_nonneg
    · positivity
    · linarith

theorem mul_stepX_le (W R r : ℕ) (hR : 1 ≤ R) (hr : r < R) :
    (r : ℚ) * stepX W R ≤ (W : ℚ) / 2 := by
  rcases eq_or_lt_of_le hR with h | h
  · have hr0 : r = 0 := by omega
    subst hr0
    simp
    positivity
  · have h2 : (2 : ℚ) ≤ (R : ℚ) := by exact_mod_cast h
    have hrR : (r : ℚ) ≤ (R : ℚ) - 1 := by
      have : (r : ℚ) + 1 ≤ (R : ℚ) := by exact_mod_cast hr
      linarith
    have hne : ((R : ℚ) - 1) ≠ 0 := by linarith
    have hx : 0 ≤ stepX W R := stepX_nonneg W R hR
    calc (r : ℚ) * stepX W R ≤ ((R : ℚ) - 1) * stepX W R :=
          mul_le_mul_of_nonneg_right hrR hx
      _ = (W : ℚ) / 2 := by
          unfold stepX
          field_simp
          ring

theorem shiftX_nonneg (W R r : ℕ) (hW : 2 ≤ W) (hR : 1 ≤ R) (hr : r < R) :
    0 ≤ shiftX W R (r + 1) := by
  have h1 := mul_stepX_le W R r hR hr
  have hW2 : (2 : ℚ) ≤ (W : ℚ) := by exact_mod_cast hW
  unfold shiftX
  have hcast : ((r + 1 : ℕ) : ℚ) - 1 = (r : ℚ) := by push_cast; ring
  rw [hcast]
  linarith

theorem floor_pair (a b : ℚ) (W : ℤ) (hab : a + b = (W : ℚ)) :
    W - 1 ≤ ⌊a⌋ + ⌊b⌋ ∧ ⌊a⌋ + ⌊b⌋ ≤ W := by
  have h1 : ((⌊a⌋ : ℤ) : ℚ) ≤ a := Int.floor_le a
  have h2 : ((⌊b⌋ : ℤ) : ℚ) ≤ b := Int.floor_le b
  have h3 : a < (⌊a⌋ : ℚ) + 1 := Int.lt_floor_add_one a
  have h4 : b < (⌊b⌋ : ℚ) + 1 := Int.lt_floor_add_one b
  constructor
  · have hq : (W : ℚ) - 2 < ((⌊a⌋ + ⌊b⌋ : ℤ) : ℚ) := by push_cast; linarith
    have hz : W - 2 < ⌊a⌋ + ⌊b⌋ := by exact_mod_cast hq
    omega
  · have hq : ((⌊a⌋ + ⌊b⌋ : ℤ) : ℚ) ≤ (W : ℚ) := by push_cast; linarith
    exact_mod_cast hq

/-- Claim C8: for any row count `R ≥ 1` (and any display at least two
pixels wide), row `r` of the generated lattice has exactly `r + 1`
pegs, and the pegs of each row are placed symmetrically about the
display's horizontal centre to within one pixel: the x-coordinates of
the `c`-th and `(r-c)`-th peg of row `r` sum to the centre's double up
to one pixel of rounding. -/
theorem C8_rows_and_symmetry (W R r c : ℕ) (hR : 1 ≤ R) (hr : r < R)
    (hc : c ≤ r) (hW : 2 ≤ W) :
    pins_per_row r = r + 1 ∧
      |((pinX W R r c + pinX W R r (r - c) : ℤ) : ℚ) - 2 * ((W : ℚ) / 2)| ≤ 1 := by
  refine ⟨rfl, ?_⟩
  have hsx : 0 ≤ stepX W R := stepX_nonneg W R hR
  have hsh : 0 ≤ shiftX W R (r + 1) := shiftX_nonneg W R r hW hR hr
  have ha0 : 0 ≤ shiftX W R (r + 1) + (c : ℚ) * stepX W R + 1/2 := by positivity
  have hb0 : 0 ≤ shiftX W R (r + 1) + ((r - c : ℕ) : ℚ) * stepX W R + 1/2 := by
    positivity
  have hcc : (c : ℚ) + ((r - c : ℕ) : ℚ) = (r : ℚ) := by
    have h := Nat.add_sub_cancel' hc
    exact_mod_cast h
  have hcast : ((r + 1 : ℕ) : ℚ) - 1 = (r : ℚ) := by push_cast; ring
  have hab : (shiftX W R (r + 1) + (c : ℚ) * stepX W R + 1/2) +
      (shiftX W R (r + 1) + ((r - c : ℕ) : ℚ) * stepX W R + 1/2) = ((W : ℤ) : ℚ) := by
    have expand : (shiftX W R (r + 1) + (c : ℚ) * stepX W R + 1/2) +
        (shiftX W R (r + 1) + ((r - c : ℕ) : ℚ) * stepX W R + 1/2) =
        (((W : ℚ) - 1) - (r : ℚ) * stepX W R) +
          ((c : ℚ) + ((r - c : ℕ) : ℚ)) * stepX W R + 1 := by
      unfold shiftX
      rw [hcast]
      ring
    rw [expand, hcc]
    push_cast
    ring
  have hpa : pinX W R r c = ⌊shiftX W R (r + 1) + (c : ℚ) * stepX W R + 1/2⌋ := by
    unfold pinX
    exact cint_eq_floor _ ha0
  have hpb : pinX W R r (r - c) =
      ⌊shiftX W R (r + 1) + ((r - c : ℕ) : ℚ) * stepX W R + 1/2⌋ := by
    unfold pinX
    exact cint_eq_floor _ hb0
  obtain ⟨hl, hu⟩ := floor_pair _ _ (W : ℤ) hab
  rw [hpa, hpb, abs_le]
  have hlq : ((W : ℤ) : ℚ) - 1 ≤
      ((⌊shiftX W R (r + 1) + (c : ℚ) * stepX W R + 1/2⌋ +
        ⌊shiftX W R (r + 1) + ((r - c : ℕ) : ℚ) * stepX W R + 1/2⌋ : ℤ) : ℚ) := by
    have : ((W : ℤ) - 1 : ℤ) ≤ _ := hl
    exact_mod_cast this
  have huq : ((⌊shiftX W R (r + 1) + (c : ℚ) * stepX W R + 1/2⌋ +
      ⌊shiftX W R (r + 1) + ((r - c : ℕ) : ℚ) * stepX W R + 1/2⌋ : ℤ) : ℚ) ≤
      ((W : ℤ) : ℚ) := by exact_mod_cast hu
  push_cast at hlq huq ⊢
  constructor <;> linarith

theorem stepY_nonneg (H R : ℕ) (hH : 2 ≤ H) (hR : 2 ≤ R) : 0 ≤ stepY H R := by
  unfold stepY
  apply div_nonneg
  · have h1 : (1 : ℕ) ≤ H / 2 := by omega
    have h2 : (1 : ℚ) ≤ ((H / 2 : ℕ) : ℚ) := by exact_mod_cast h1
    linarith
  · have h2 : (2 : ℚ) ≤ (R : ℚ) := by exact_mod_cast hR
    linarith

/-- Claim C3, counterexample: on the actual display geometry the code's
vertical step is `(⌊64/2⌋ - 1)/(15 - 1) = 31/14`, not the claimed
`(64/2)/(15 - 1) = 32/14`, and the row-0 x-offset is `(128 - 1)/2 = 63.5`,
not the claimed `(128 - 0·step_x)/2 = 64`. -/
theorem C3_cex :
    stepY 64 15 ≠ ((64 : ℚ) / 2) / ((15 : ℚ) - 1) ∧
      shiftX 128 15 1 ≠ ((128 : ℚ) - ((1 : ℚ) - 1) * stepX 128 15) / 2 := by
  decide

/-- Claim C3 as amended: the horizontal step is `(W/2)/(R-1)` as
claimed, but the vertical step is `(⌊H/2⌋ - 1)/(R-1)` (integer halving,
minus one), the per-row x-offset is `((W-1) - (count-1)·step_x)/2`
(width minus one), and each peg coordinate is the corresponding exact
position rounded to a nearest integer pixel (within 1/2). -/
theorem C3_lattice_geometry (W H R r c : ℕ) (hR : 2 ≤ R) (hH : 2 ≤ H)
    (hW : 2 ≤ W) (hr : r < R) (_hc : c ≤ r) :
    stepX W R * ((R : ℚ) - 1) = (W : ℚ) / 2 ∧
      stepY H R * ((R : ℚ) - 1) = ((H / 2 : ℕ) : ℚ) - 1 ∧
      shiftX W R (r + 1) = (((W : ℚ) - 1) - (r : ℚ) * stepX W R) / 2 ∧
      |((pinX W R r c : ℤ) : ℚ) - (shiftX W R (r + 1) + (c : ℚ) * stepX W R)| ≤ 1/2 ∧
      |((pinY H R r : ℤ) : ℚ) - (r : ℚ) * stepY H R| ≤ 1/2 := by
  have hRq : (2 : ℚ) ≤ (R : ℚ) := by exact_mod_cast hR
  have hne : ((R : ℚ) - 1) ≠ 0 := by linarith
  have hcast : ((r + 1 : ℕ) : ℚ) - 1 = (r : ℚ) := by push_cast; ring
  refine ⟨?_, ?_, ?_, ?_, ?_⟩
  · unfold stepX
    rw [div_mul_cancel₀ _ hne]
    ring
  · unfold stepY
    rw [div_mul_cancel₀ _ hne]
  · unfold shiftX
    rw [hcast]
    ring
  · have ha0 : 0 ≤ shiftX W R (r + 1) + (c : ℚ) * stepX W R + 1/2 := by
      have hsx : 0 ≤ stepX W R := stepX_nonneg W R (by omega)
      have hsh : 0 ≤ shiftX W R (r + 1) := shiftX_nonneg W R r hW (by omega) hr
      positivity
    unfold pinX
    rw [cint_eq_floor _ ha0]
    exact floor_add_half_abs _
  · have hb0 : 0 ≤ (r : ℚ) * stepY H R + 1/2 := by
      have hsy : 0 ≤ stepY H R := stepY_nonneg H R hH hR
      positivity
    unfold pinY
    rw [cint_eq_floor _ hb0]
    exact floor_add_half_abs _

theorem C3_witness :
    ((2 : ℕ) ≤ 15 ∧ (2 : ℕ) ≤ 64 ∧ (2 : ℕ) ≤ 128 ∧ 13 < 15 ∧ 2 ≤ 13) ∧
      stepY 64 15 * ((15 : ℚ) - 1) = ((64 / 2 : ℕ) : ℚ) - 1 ∧
      |((pinY 64 15 13 : ℤ) : ℚ) - (13 : ℚ) * stepY 64 15| ≤ 1/2 :=
  ⟨by norm_num,
    (C3_lattice_geometry 128 64 15 13 2 (by norm_num) (by norm_num) (by norm_num)
      (by norm_num) (by norm_num)).2.1,
    (C3_lattice_geometry 128 64 15 13 2 (by norm_num) (by norm_num) (by norm_num)
      (by norm_num) (by norm_num)).2.2.2.2⟩

/-- Claim C2, counterexample: the forced-right apex ball exits on the
43rd update having deflected only 14 times (`deflectRows` has length
14, not `ROWS = 15`); its final x is more than one pixel away from
`apex_x + ROWS · step_x`, so the claimed final position fails even
"within rounding". -/
theorem C2_cex :
    (traceRight 43).active = false ∧ (traceRight 42).active = true ∧
      deflectRows.length = 14 ∧ deflectRows.length ≠ ROWS ∧
      ¬(|(traceRight 43).x -
          (((pinX 128 15 0 0 : ℤ) : ℚ) + (ROWS : ℚ) * stepX 128 15)| ≤ 1) := by
  decide

/-- Claim C2 as amended: on the actual geometry the forced-right apex
ball deflects exactly once in each lattice row 1 through
`ROWS - 1 = 14` — row 0 never triggers a deflection because the first
1.5-pixel fall already lands past row 0's half-step capture band — for
a total of `ROWS - 1` deflections, and its final x equals
`apex_x + (ROWS - 1) · step_x` exactly. -/
theorem C2_forced_right_deflections :
    deflectRows = [1, 2, 3, 4, 5, 6, 7, 8, 9, 10, 11, 12, 13, 14] ∧
      deflectRows.length = ROWS - 1 ∧
      (traceRight 43).x = ((pinX 128 15 0 0 : ℤ) : ℚ) + ((ROWS : ℚ) - 1) * stepX 128 15 ∧
      (traceRight 43).active = false := by
  decide

theorem runStep_idle (W H : ℕ) (sd : Bool) (dirs : ℕ → Bool) (s : Sim)
    (h : s.running = false) : runStep W H sd dirs s = s := by
  unfold runStep
  rw [h]
  simp

theorem buttonStep_noop (iA iB : Bool) (s : Sim) (hrun : s.running = true)
    (hB : (iB && !s.lastBtnB) = false) :
    buttonStep iA iB s = { s with lastBtnA := iA, lastBtnB := iB } := by
  unfold buttonStep buttonStepA buttonStepB
  simp [hrun, hB]

/-- Claim C10: while the controller is running, a start-button press
(including a rising edge) has no effect on the simulation state — the
button-handling step leaves `running` true and `ball_count`, all ball
slots and all bins unchanged (a start press only has an effect while
idle). -/
theorem C10_start_ignored_while_running (iA iB : Bool) (s : Sim)
    (hrun : s.running = true) (hB : (iB && !s.lastBtnB) = false) :
    (buttonStep iA iB s).running = true ∧
      (buttonStep iA iB s).ballCount = s.ballCount ∧
      (buttonStep iA iB s).balls = s.balls ∧
      (buttonStep iA iB s).bins = s.bins := by
  rw [buttonStep_noop iA iB s hrun hB]
  exact ⟨hrun, rfl, rfl, rfl⟩

theorem C10_witness :
    simMidRun.running = true ∧ ((false && !simMidRun.lastBtnB) = false) ∧
      (buttonStep true false simMidRun).running = true ∧
      (buttonStep true false simMidRun).ballCount = simMidRun.ballCount :=
  ⟨rfl, rfl, (C10_start_ignored_while_running true false simMidRun rfl rfl).1,
    (C10_start_ignored_while_running true false simMidRun rfl rfl).2.1⟩

theorem reset_getD (l : List Ball) (i : ℕ) :
    ((reset_balls l).getD i ballZero).active = false ∧
      ((reset_balls l).getD i ballZero).counted = false := by
  induction l generalizing i with
  | nil => simp [reset_balls, ballZero]
  | cons a t ih =>
    cases i with
    | zero => simp [reset_balls, clearBall]
    | succ n => simpa [reset_balls] using ih n

/-- Claim C4, counterexample: handling a stop/reset press while running
with `ball_count = 3` leaves `ball_count = 3`; the code never zeroes
`spawned_count` on an explicit stop, only on the next start. -/
theorem C4_cex :
    (tick 128 64 inpReset simMidRun).ballCount = 3 ∧
      (tick 128 64 inpReset simMidRun).ballCount ≠ 0 := by
  decide

/-- Claim C4 as amended: after the controller handles an explicit
stop/reset signal (in any state, at any time), every particle slot is
inactive and uncounted, every bin count is zero, and `running` is
false; `spawned_count`, however, is NOT zeroed by the stop itself — it
keeps its previous value (or 0 if a simultaneous start press from idle
zeroed it first) and is reset only by the next start press. -/
theorem C4_stop_reset (W H : ℕ) (inp : Input) (s : Sim)
    (hB : (inp.btnB && !s.lastBtnB) = true) :
    (tick W H inp s).running = false ∧
      (tick W H inp s).bins = zeroBins ∧
      (∀ i, ((tick W H inp s).balls.getD i ballZero).active = false ∧
        ((tick W H inp s).balls.getD i ballZero).counted = false) ∧
      (tick W H inp s).ballCount =
        (if (inp.btnA && !s.lastBtnA && !s.running) = true then 0
         else s.ballCount) := by
  unfold tick buttonStep buttonStepA buttonStepB
  by_cases hA : (inp.btnA && !s.lastBtnA && !s.running) = true
  · rw [if_pos hA]
    rw [if_pos (show (inp.btnB && !(Sim.lastBtnB _)) = true by simpa using hB)]
    rw [runStep_idle _ _ _ _ _ rfl]
    refine ⟨rfl, rfl, ?_, ?_⟩
    · intro i
      exact reset_getD _ i
    · rw [if_pos hA]
  · rw [if_neg hA]
    rw [if_pos hB]
    rw [runStep_idle _ _ _ _ _ rfl]
    refine ⟨rfl, rfl, ?_, ?_⟩
    · intro i
      exact reset_getD _ i
    · rw [if_neg hA]

theorem C4_witness :
    ((inpReset.btnB && !simMidRun.lastBtnB) = true) ∧
      (tick 128 64 inpReset simMidRun).running = false ∧
      (tick 128 64 inpReset simMidRun).bins = zeroBins ∧
      ((tick 128 64 inpReset simMidRun).balls.getD 2 ballZero).active = false :=
  ⟨rfl, (C4_stop_reset 128 64 inpReset simMidRun rfl).1,
    (C4_stop_reset 128 64 inpReset simMidRun rfl).2.1,
    ((C4_stop_reset 128 64 inpReset simMidRun rfl).2.2.1 2).1⟩

theorem counted_mark (b : Ball) : ({ b with counted := true } : Ball).counted = true :=
  rfl

theorem update_ball_counted (sx sy : ℚ) (H : ℕ) (dir : Bool) (b : Ball) :
    (update_ball sx sy H dir b).counted = b.counted := by
  unfold update_ball
  dsimp only
  split_ifs <;> rfl

theorem processAll_succ (W H : ℕ) (dirs : ℕ → Bool) (bc : ℕ) (balls : List Ball)
    (bins : List ℕ) :
    processAll W H dirs (bc + 1) balls bins =
      stepBody W H dirs (processAll W H dirs bc balls bins) bc := by
  simp [processAll, List.range_succ, List.foldl_append]

theorem processAll_spec (W H : ℕ) (dirs : ℕ → Bool) (bc : ℕ) :
    ∀ (balls : List Ball) (bins : List ℕ), bc ≤ balls.length →
      bins.length = NUM_BINS →
      (processAll W H dirs bc balls bins).1.length = balls.length ∧
        (processAll W H dirs bc balls bins).2.length = NUM_BINS ∧
        (∀ i, (processAll W H dirs bc balls bins).1.getD i ballZero =
          if i < bc then procOne W H dirs i (balls.getD i ballZero)
          else balls.getD i ballZero) ∧
        (processAll W H dirs bc balls bins).2.sum + countedCount balls =
          countedCount (processAll W H dirs bc balls bins).1 + bins.sum := by
  induction bc with
  | zero =>
    intro balls bins _ h2
    have h : processAll W H dirs 0 balls bins = (balls, bins) := by
      simp [processAll, List.range_zero]
    rw [h]
    dsimp only
    exact ⟨rfl, h2, fun i => by rw [if_neg (Nat.not_lt_zero i)], by omega⟩
  | succ bc ih =>
    intro balls bins hbc hbins
    obtain ⟨l1, l2, l3, l4⟩ := ih balls bins (by omega) hbins
    rw [processAll_succ]
    have hread : (processAll W H dirs bc balls bins).1.getD bc ballZero =
        balls.getD bc ballZero := by
      rw [l3 bc, if_neg (lt_irrefl bc)]
    unfold stepBody
    rw [hread]
    by_cases hact : (balls.getD bc ballZero).active = true
    · rw [if_pos hact]
      dsimp only
      refine ⟨?_, l2, ?_, ?_⟩
      · rw [List.length_set]
        exact l1
      · intro i
        by_cases hi : i = bc
        · subst hi
          rw [getD_set_self ballZero _ _ _ (by rw [l1]; omega)]
          rw [if_pos (Nat.lt_succ_self _)]
          unfold procOne
          rw [if_pos hact]
        · rw [getD_set_ne ballZero _ _ _ _ (fun e => hi e.symm)]
          rw [l3 i]
          by_cases hlt : i < bc
          · rw [if_pos hlt, if_pos (by omega)]
          · rw [if_neg hlt, if_neg (by omega)]
      · have hset := countP_set_add (fun b => b.counted) ballZero
          (processAll W H dirs bc balls bins).1 bc
          (update_ball (stepX W BASE_PINS) (stepY H ROWS) H (dirs bc)
            (balls.getD bc ballZero)) (by rw [l1]; omega)
        simp only [] at hset
        rw [hread] at hset
        simp only [update_ball_counted] at hset
        unfold countedCount at l4 ⊢
        omega
    · rw [if_neg hact]
      by_cases hcnt : (balls.getD bc ballZero).counted = false
      · rw [if_pos hcnt]
        dsimp only
        have hidx : selectBin W (balls.getD bc ballZero).x < NUM_BINS :=
          scanLoop_idx_lt _ NUM_BINS (by norm_num [NUM_BINS])
        refine ⟨?_, ?_, ?_, ?_⟩
        · rw [List.length_set]
          exact l1
        · unfold incBin
          rw [List.length_set]
          exact l2
        · intro i
          by_cases hi : i = bc
          · subst hi
            rw [getD_set_self ballZero _ _ _ (by rw [l1]; omega)]
            rw [if_pos (Nat.lt_succ_self _)]
            unfold procOne
            rw [if_neg hact, if_pos hcnt]
          · rw [getD_set_ne ballZero _ _ _ _ (fun e => hi e.symm)]
            rw [l3 i]
            by_cases hlt : i < bc
            · rw [if_pos hlt, if_pos (by omega)]
            · rw [if_neg hlt, if_neg (by omega)]
        · have hsum := sum_incBin (processAll W H dirs bc balls bins).2
            (selectBin W (balls.getD bc ballZero).x) (by rw [l2]; exact hidx)
          have hset := countP_set_add (fun b => b.counted) ballZero
            (processAll W H dirs bc balls bins).1 bc
            { balls.getD bc ballZero with counted := true } (by rw [l1]; omega)
          simp only [] at hset
          rw [hread] at hset
          simp only [hcnt, counted_mark, Bool.false_eq_true, if_false, if_true]
            at hset
          unfold countedCount at l4 ⊢
          rw [hsum]
          omega
      · rw [if_neg hcnt]
        refine ⟨l1, l2, ?_, l4⟩
        intro i
        by_cases hi : i = bc
        · subst hi
          rw [hread, if_pos (Nat.lt_succ_self _)]
          unfold procOne
          rw [if_neg hact, if_neg hcnt]
        · rw [l3 i]
          by_cases hlt : i < bc
          · rw [if_pos hlt, if_pos (by omega)]
          · rw [if_neg hlt, if_neg (by omega)]

theorem countedCount_reset (l : List Ball) : countedCount (reset_balls l) = 0 := by
  unfold countedCount reset_balls
  induction l with
  | nil => rfl
  | cons a t ih => simp [List.countP_cons, clearBall, ih]

theorem bool_not_true_eq_false (b : Bool) (h : ¬b = true) : b = false := by
  cases b
  · rfl
  · exact absurd rfl h

theorem inv_advanceFrame (W H : ℕ) (dirs : ℕ → Bool) (s : Sim) (bc : ℕ)
    (balls0 : List Ball)
    (hlen : balls0.length = TOTAL_BALLS)
    (hbins : s.bins.length = NUM_BINS)
    (hbc : bc ≤ TOTAL_BALLS)
    (hsum : s.bins.sum = countedCount balls0)
    (hI5 : ∀ i, i < TOTAL_BALLS → (balls0.getD i ballZero).counted = true →
      (balls0.getD i ballZero).active = false)
    (hI4 : ∀ i, i < TOTAL_BALLS → bc ≤ i →
      (balls0.getD i ballZero).counted = false) :
    SimInv (advanceFrame W H dirs s bc balls0) := by
  obtain ⟨l1, l2, l3, l4⟩ := processAll_spec W H dirs bc balls0 s.bins
    (by omega) hbins
  unfold advanceFrame SimInv
  dsimp only
  refine ⟨by rw [l1]; exact hlen, l2, hbc, ?_, ?_, ?_, ?_⟩
  · unfold countedCount at l4 hsum ⊢
    omega
  · intro i hi
    rw [l3 i]
    by_cases hlt : i < bc
    · rw [if_pos hlt]
      unfold procOne
      by_cases hact : (balls0.getD i ballZero).active = true
      · rw [if_pos hact]
        intro hcnt
        rw [update_ball_counted] at hcnt
        exact absurd (hI5 i hi hcnt) (by simp only [hact]; decide)
      · rw [if_neg hact]
        by_cases hcf : (balls0.getD i ballZero).counted = false
        · rw [if_pos hcf]
          intro _
          exact bool_not_true_eq_false _ hact
        · rw [if_neg hcf]
          exact hI5 i hi
    · rw [if_neg hlt]
      exact hI5 i hi
  · intro i hi hge
    rw [l3 i, if_neg (by omega)]
    exact hI4 i hi hge
  · intro hrun hcnt
    cases hA : anyActive (processAll W H dirs bc balls0 s.bins).1
    · rw [if_pos ⟨by omega, hA⟩] at hrun
      exact absurd hrun (by decide)
    · rfl

theorem inv_runStep (W H : ℕ) (sd : Bool) (dirs : ℕ → Bool) (s : Sim)
    (h : SimInv s) : SimInv (runStep W H sd dirs s) := by
  unfold runStep
  by_cases hrun : s.running = true
  · rw [if_pos hrun]
    obtain ⟨h1, h2, h3, h4, h5, h6, h7⟩ := h
    by_cases hsp : s.ballCount < TOTAL_BALLS ∧ sd = true
    · rw [if_pos hsp]
      have hccset : countedCount (s.balls.set s.ballCount (init_ball W)) =
          countedCount s.balls := by
        have hold : (s.balls.getD s.ballCount ballZero).counted = false :=
          h6 s.ballCount hsp.1 (le_refl _)
        have hset := countP_set_add (fun b => b.counted) ballZero s.balls
          s.ballCount (init_ball W) (by omega)
        simp only [] at hset
        have hinit : (init_ball W).counted = false := rfl
        simp only [hold, hinit] at hset
        unfold countedCount
        omega
      apply inv_advanceFrame
      · rw [List.length_set]
        exact h1
      · exact h2
      · omega
      · rw [hccset]
        exact h4
      · intro i hi hcnt
        by_cases hieq : i = s.ballCount
        · subst hieq
          rw [getD_set_self ballZero s.balls _ _ (by omega)] at hcnt
          exact absurd hcnt (by simp [init_ball])
        · rw [getD_set_ne ballZero s.balls _ _ _ (fun e => hieq e.symm)] at hcnt ⊢
          exact h5 i hi hcnt
      · intro i hi hge
        rw [getD_set_ne ballZero s.balls _ _ _ (by omega)]
        exact h6 i hi (by omega)
    · rw [if_neg hsp]
      exact inv_advanceFrame W H dirs s s.ballCount s.balls h1 h2 h3 h4 h5 h6
  · rw [if_neg hrun]
    exact h

theorem inv_buttonStepA (iA : Bool) (s : Sim) (h : SimInv s) :
    SimInv (buttonStepA iA s) := by
  unfold buttonStepA
  split
  · obtain ⟨h1, h2, h3, h4, h5, h6, h7⟩ := h
    unfold SimInv
    dsimp only
    refine ⟨by simpa [reset_balls] using h1, rfl, by omega, ?_, ?_, ?_, ?_⟩
    · rw [countedCount_reset]
      rfl
    · intro i hi hcnt
      exact absurd hcnt (by rw [(reset_getD s.balls i).2]; decide)
    · intro i hi _
      exact (reset_getD s.balls i).2
    · intro _ hcnt
      exact absurd hcnt (by decide)
  · exact h

theorem inv_buttonStepB (iB : Bool) (s : Sim) (h : SimInv s) :
    SimInv (buttonStepB iB s) := by
  unfold buttonStepB
  split
  · obtain ⟨h1, h2, h3, h4, h5, h6, h7⟩ := h
    unfold SimInv
    dsimp only
    refine ⟨by simpa [reset_balls] using h1, rfl, h3, ?_, ?_, ?_, ?_⟩
    · rw [countedCount_reset]
      rfl
    · intro i hi hcnt
      exact absurd hcnt (by rw [(reset_getD s.balls i).2]; decide)
    · intro i hi _
      exact (reset_getD s.balls i).2
    · intro hrun
      exact absurd hrun (by simp)
  · exact h

theorem inv_buttonStep (iA iB : Bool) (s : Sim) (h : SimInv s) :
    SimInv (buttonStep iA iB s) := by
  unfold buttonStep
  exact inv_buttonStepB iB _ (inv_buttonStepA iA s h)

theorem inv_tick (W H : ℕ) (inp : Input) (s : Sim) (h : SimInv s) :
    SimInv (tick W H inp s) := by
  unfold tick
  exact inv_runStep W H inp.spawnDue inp.dirs _ (inv_buttonStep inp.btnA inp.btnB s h)

theorem inv_initSim : SimInv initSim := by decide

theorem reach_inv (W H : ℕ) (s : Sim) (h : Reach W H s) : SimInv s := by
  induction h with
  | init => exact inv_initSim
  | step inp s _ ih => exact inv_tick W H inp s ih

theorem C8_witness :
    (1 ≤ 15 ∧ 14 < 15 ∧ 3 ≤ 14 ∧ 2 ≤ 128) ∧ pins_per_row 14 = 14 + 1 ∧
      |((pinX 128 15 14 3 + pinX 128 15 14 (14 - 3) : ℤ) : ℚ) -
        2 * ((128 : ℚ) / 2)| ≤ 1 :=
  ⟨by norm_num, (C8_rows_and_symmetry 128 15 14 3 (by norm_num) (by norm_num)
      (by norm_num) (by norm_num)).1,
    (C8_rows_and_symmetry 128 15 14 3 (by norm_num) (by norm_num) (by norm_num)
      (by norm_num)).2⟩

/-- Claim C1 (refuted — the code undercounts): in any state satisfying
the loop invariant (`SimInv`, which holds in every reachable state by
`reach_inv`), if an iteration without a reset edge ends a running run
— the natural-completion transition — the bins sum to STRICTLY less
than `TOTAL_BALLS`.  Any ball that turns inactive during the completion
iteration is never credited to a bin: the counting branch only runs on
a later iteration, but the completion check has already cleared
`running` in this one. -/
theorem C1_natural_completion_undercounts (W H : ℕ) (hH : 2 ≤ H) (s : Sim)
    (inp : Input) (hinv : SimInv s) (hrun : s.running = true)
    (hB : (inp.btnB && !s.lastBtnB) = false)
    (hflip : (tick W H inp s).running = false) :
    (tick W H inp s).bins.sum < TOTAL_BALLS := by
  obtain ⟨h1, h2, h3, h4, h5, h6, h7⟩ := hinv
  unfold tick at hflip ⊢
  rw [buttonStep_noop inp.btnA inp.btnB s hrun hB] at hflip ⊢
  unfold runStep at hflip ⊢
  dsimp only at hflip ⊢
  rw [if_pos hrun] at hflip ⊢
  by_cases hsp : s.ballCount < TOTAL_BALLS ∧ inp.spawnDue = true
  · -- a spawn happened: the fresh ball survives this iteration, no flip
    exfalso
    rw [if_pos hsp] at hflip
    obtain ⟨l1, l2, l3, l4⟩ := processAll_spec W H inp.dirs (s.ballCount + 1)
      (s.balls.set s.ballCount (init_ball W)) s.bins
      (by rw [List.length_set]; omega) h2
    unfold advanceFrame at hflip
    dsimp only at hflip
    have hup : (processAll W H inp.dirs (s.ballCount + 1)
        (s.balls.set s.ballCount (init_ball W)) s.bins).1.getD s.ballCount
        ballZero = procOne W H inp.dirs s.ballCount (init_ball W) := by
      rw [l3 s.ballCount, if_pos (Nat.lt_succ_self _),
        getD_set_self ballZero s.balls _ _ (by omega)]
    have hactive : ((processAll W H inp.dirs (s.ballCount + 1)
        (s.balls.set s.ballCount (init_ball W)) s.bins).1.getD s.ballCount
        ballZero).active = true := by
      rw [hup]
      unfold procOne
      rw [if_pos (show (init_ball W).active = true from rfl)]
      unfold update_ball init_ball
      dsimp only
      have h32 : (3 : ℚ) / 2 < (H : ℚ) := by
        have hq : (2 : ℚ) ≤ (H : ℚ) := by exact_mod_cast hH
        linarith
      split
      · rfl
      · split <;> exact decide_eq_true h32
    have hany : anyActive (processAll W H inp.dirs (s.ballCount + 1)
        (s.balls.set s.ballCount (init_ball W)) s.bins).1 = true := by
      unfold anyActive
      rw [List.any_eq_true]
      exact ⟨s.ballCount, List.mem_range.mpr hsp.1, hactive⟩
    simp only [hany] at hflip
    rw [if_neg (by simp)] at hflip
    rw [hrun] at hflip
    exact absurd hflip (by decide)
  · rw [if_neg hsp] at hflip ⊢
    unfold advanceFrame at hflip ⊢
    dsimp only at hflip ⊢
    obtain ⟨l1, l2, l3, l4⟩ := processAll_spec W H inp.dirs s.ballCount s.balls
      s.bins (by omega) h2
    by_cases hcond : TOTAL_BALLS ≤ s.ballCount ∧
        anyActive (processAll W H inp.dirs s.ballCount s.balls s.bins).1 = false
    · -- the natural-completion flip: some ball was still active at the
      -- start of the iteration, went inactive in it, and is uncounted
      have hbc : s.ballCount = TOTAL_BALLS := by omega
      have hany := h7 hrun hbc
      unfold anyActive at hany
      rw [List.any_eq_true] at hany
      obtain ⟨i, hiR, hiact⟩ := hany
      have hi : i < TOTAL_BALLS := List.mem_range.mp hiR
      have hprecnt : (s.balls.getD i ballZero).counted = false := by
        cases hc : (s.balls.getD i ballZero).counted
        · rfl
        · exact absurd (h5 i hi hc) (by rw [hiact]; decide)
      have hpost : ((processAll W H inp.dirs s.ballCount s.balls s.bins).1.getD i
          ballZero).counted = false := by
        rw [l3 i, if_pos (by omega)]
        unfold procOne
        rw [if_pos hiact, update_ball_counted]
        exact hprecnt
      have hilen : i < (processAll W H inp.dirs s.ballCount s.balls
          s.bins).1.length := by
        rw [l1, h1]
        omega
      have hcc := countP_lt_of_getD_false (fun b => b.counted) _ i hilen
        (by simp only []; exact hpost)
      unfold countedCount at l4 h4
      omega
    · rw [if_neg hcond] at hflip
      rw [hrun] at hflip
      exact absurd hflip (by decide)

theorem C1_witness :
    ((2 : ℕ) ≤ 64 ∧ SimInv simLastTick ∧ simLastTick.running = true ∧
      (inpQuiet.btnB && !simLastTick.lastBtnB) = false ∧
      (tick 128 64 inpQuiet simLastTick).running = false) ∧
      (tick 128 64 inpQuiet simLastTick).bins.sum < TOTAL_BALLS :=
  ⟨⟨by decide, by decide, rfl, rfl, by decide⟩,
    C1_natural_completion_undercounts 128 64 (by decide) simLastTick inpQuiet
      (by decide) rfl rfl (by decide)⟩

end Galton
